import Mathlib

/-!
Verification of the `postgresql_setting` Ansible module (two source
variants: the modern `src/postgresql_setting.py` and the early
`src/library/postgresql_setting.py`).

The `pg_settings` catalog of the managed instance is modelled as a list
of rows; each row carries the parameter name, its context classification,
its boot-time value (`boot_val`) and its current persisted value
(`reset_val`).  Following the spec's data model, the engine's
`current_setting(name)` is the row's persisted value.  An
`ALTER SYSTEM SET name TO v` write is modelled by its idealized effect on
the catalog (the persisted value of every row named `name` becomes `v`),
and `ALTER SYSTEM RESET name` restores the boot value, matching the
spec's reading of writes taking effect at the next reload.  Fallible
queries (a `fetchone()[0]` on an empty result, or `current_setting` on an
unknown name) are modelled with `Option`, `none` being the fault.
-/

/-- A row of the `pg_settings` catalog. -/
structure Row where
  name : String
  context : String
  boot_val : String
  reset_val : String
deriving DecidableEq

/-- The visible catalog state of the instance. -/
abbrev Db := List Row

/-- First catalog row bearing the given name (what a `fetchone()` on a
`WHERE name = ...` query returns). -/
def findRow (db : Db) (guc : String) : Option Row :=
  db.find? (fun r => r.name == guc)

/-- A mutating statement issued against the instance. -/
inductive Stmt where
  | resetStmt : String → Stmt
  | setStmt : String → String → Stmt
deriving DecidableEq

/-- Desired presence state of the parameter (`state` module argument). -/
inductive GucState where
  | present
  | absent
deriving DecidableEq

/-- Idealized catalog effect of `ALTER SYSTEM SET guc TO value`. -/
def applySetDb (db : Db) (guc value : String) : Db :=
  db.map (fun r => if r.name == guc then { r with reset_val := value } else r)

/-- Idealized catalog effect of `ALTER SYSTEM RESET guc`. -/
def applyResetDb (db : Db) (guc : String) : Db :=
  db.map (fun r => if r.name == guc then { r with reset_val := r.boot_val } else r)

/-- The engine's `current_setting(guc)`: faults (`none`) when no such
parameter exists. -/
def current_setting (db : Db) (guc : String) : Option String :=
  (findRow db guc).map (fun r => r.reset_val)

/-! Modern variant: `src/postgresql_setting.py`. -/

/-- `is_guc_configurable`: `SELECT EXISTS (SELECT 1 FROM pg_settings WHERE
context <> 'internal' AND name = %s)`. -/
def is_guc_configurable (db : Db) (guc : String) : Bool :=
  db.any (fun r => r.context != "internal" && r.name == guc)

/-- `get_default_guc_value`: `SELECT boot_val FROM pg_settings WHERE name = %s`
followed by `fetchone()[0]`, which faults on an empty result. -/
def get_default_guc_value (db : Db) (guc : String) : Option String :=
  (findRow db guc).map (fun r => r.boot_val)

/-- `is_guc_default`: `SELECT EXISTS (SELECT 1 FROM pg_settings WHERE
boot_val = reset_val AND name = %s)`. -/
def is_guc_default (db : Db) (guc : String) : Bool :=
  db.any (fun r => r.boot_val == r.reset_val && r.name == guc)

/-- `guc_exists`: `SELECT name FROM pg_settings WHERE name = %s`, then
`rowcount > 0`. -/
def guc_exists (db : Db) (guc : String) : Bool :=
  db.any (fun r => r.name == guc)

/-- `guc_matches`: `SELECT current_setting(%s) = %s`; faults when the
parameter is unknown to the engine. -/
def guc_matches (db : Db) (guc value : String) : Option Bool :=
  (current_setting db guc).map (fun cur => cur == value)

/-- Result of one apply operation: the reported flag, the catalog after the
operation, and the mutating statements issued. -/
structure WriteResult where
  changed : Bool
  db : Db
  writes : List Stmt
deriving DecidableEq

/-- `do_guc_reset`: reset the parameter when it has a non-default value. -/
def do_guc_reset (db : Db) (guc : String) : WriteResult :=
  if !(is_guc_default db guc) then
    ⟨true, applyResetDb db guc, [Stmt.resetStmt guc]⟩
  else
    ⟨false, db, []⟩

/-- `do_guc_set`: set a new value when the current one does not match. -/
def do_guc_set (db : Db) (guc value : String) : Option WriteResult :=
  (guc_matches db guc value).map (fun m =>
    if !m then ⟨true, applySetDb db guc value, [Stmt.setStmt guc value]⟩
    else ⟨false, db, []⟩)

/-- Outcome of one module invocation: the reported `changed` flag, whether a
warning was emitted, the catalog state afterwards, and the mutating
statements issued.  `none` models an uncaught runtime fault. -/
structure Outcome where
  changed : Bool
  warned : Bool
  db : Db
  writes : List Stmt
deriving DecidableEq

/-- The decision logic of `main` in the modern variant, after a connection
has been established: guard on `is_guc_configurable`, short-circuit in check
mode, otherwise dispatch on `state` to `do_guc_reset` / `do_guc_set`. -/
def reconcile (db : Db) (guc value : String) (state : GucState)
    (checkMode : Bool) : Option Outcome :=
  if is_guc_configurable db guc then
    if checkMode then
      match state with
      | .absent => some ⟨!(is_guc_default db guc), false, db, []⟩
      | .present => (guc_matches db guc value).map (fun m => ⟨!m, false, db, []⟩)
    else
      match state with
      | .absent =>
          let r := do_guc_reset db guc
          some ⟨r.changed, false, r.db, r.writes⟩
      | .present =>
          (do_guc_set db guc value).map (fun r => ⟨r.changed, false, r.db, r.writes⟩)
  else
    some ⟨false, true, db, []⟩

/-! Early variant: `src/library/postgresql_setting.py`. -/

/-- `option_ispreset`: row with `context = 'internal'` for the name. -/
def option_ispreset (db : Db) (o : String) : Bool :=
  db.any (fun r => r.context == "internal" && r.name == o)

/-- `option_get_default_value`: `fetchone()[0]` on the `boot_val` query;
faults on an empty result. -/
def option_get_default_value (db : Db) (o : String) : Option String :=
  (findRow db o).map (fun r => r.boot_val)

/-- `option_isdefault`: fetches `boot_val, reset_val` for the name and
compares them; explicitly returns `False` when no row exists. -/
def option_isdefault (db : Db) (o : String) : Bool :=
  match findRow db o with
  | some r => r.boot_val == r.reset_val
  | none => false

/-- `option_exists`: `rowcount > 0` on the name query. -/
def option_exists (db : Db) (o : String) : Bool :=
  db.any (fun r => r.name == o)

/-- `option_matches`: `current_setting` comparison; faults when the
parameter is unknown to the engine. -/
def option_matches (db : Db) (o v : String) : Option Bool :=
  (current_setting db o).map (fun cur => cur == v)

/-- `option_reset`: when the parameter is not at its default, writes
`ALTER SYSTEM SET o TO boot` with the boot value fetched by
`option_get_default_value`; the fetch faults (`none`) when no row exists. -/
def option_reset (db : Db) (o : String) : Option WriteResult :=
  if !(option_isdefault db o) then
    (option_get_default_value db o).map (fun d =>
      ⟨true, applySetDb db o d, [Stmt.setStmt o d]⟩)
  else
    some ⟨false, db, []⟩

/-- `option_set`: set a new value when the current one does not match. -/
def option_set (db : Db) (o v : String) : Option WriteResult :=
  (option_matches db o v).map (fun m =>
    if !m then ⟨true, applySetDb db o v, [Stmt.setStmt o v]⟩
    else ⟨false, db, []⟩)

/-- The decision logic of `main` in the early variant: warn when preset,
otherwise proceed only when the row exists, with the same check-mode and
state dispatch as the modern variant. -/
def earlyMain (db : Db) (o v : String) (state : GucState)
    (checkMode : Bool) : Option Outcome :=
  if option_ispreset db o then
    some ⟨false, true, db, []⟩
  else if option_exists db o then
    if checkMode then
      match state with
      | .absent => some ⟨!(option_isdefault db o), false, db, []⟩
      | .present => (option_matches db o v).map (fun m => ⟨!m, false, db, []⟩)
    else
      match state with
      | .absent => (option_reset db o).map (fun r => ⟨r.changed, false, r.db, r.writes⟩)
      | .present => (option_set db o v).map (fun r => ⟨r.changed, false, r.db, r.writes⟩)
  else
    some ⟨false, true, db, []⟩

/-! Syntactic layer: the SQL text actually sent, for the injection claim.
The early variant builds statements with raw Python `%` string formatting;
the modern variant uses `psycopg2.sql.Identifier` (double-quote and double
embedded double quotes) for the name and a bound parameter for the value. -/

/-- A statement as handed to `cursor.execute`: its text and its bound
parameters. -/
structure SqlStmt where
  text : String
  params : List String
deriving DecidableEq

/-- A single-quote character, the SQL string delimiter. -/
def singleQuote : String := String.singleton (Char.ofNat 39)

/-- Text of the early variant's `option_set` statement:
`"ALTER SYSTEM SET %s TO '%s'" % (option, value)` — raw interpolation,
no bound parameters. -/
def option_set_sql (o v : String) : SqlStmt :=
  ⟨"ALTER SYSTEM SET " ++ o ++ " TO " ++ singleQuote ++ v ++ singleQuote, []⟩

/-- Double-quote-escaping step of `psycopg2.sql.Identifier`. -/
def escQuotes : List Char → List Char
  | [] => []
  | c :: cs => if c = '"' then '"' :: '"' :: escQuotes cs else c :: escQuotes cs

/-- `psycopg2.sql.Identifier`: the name wrapped in double quotes with
embedded double quotes doubled. -/
def quoteIdent (s : String) : String :=
  String.mk ('"' :: (escQuotes s.data ++ ['"']))

/-- Statement sent by the modern `do_guc_set`: constant template, the name
through `quoteIdent`, the value as the sole bound parameter. -/
def do_guc_set_sql (g v : String) : SqlStmt :=
  ⟨"ALTER SYSTEM SET " ++ quoteIdent g ++ " TO %s", [v]⟩

/-- Statement sent by the modern `do_guc_reset`: constant template, the
name through `quoteIdent`, no bound parameters. -/
def do_guc_reset_sql (g : String) : SqlStmt :=
  ⟨"ALTER SYSTEM RESET " ++ quoteIdent g, []⟩

/-! Connection-parameter assembly (`main`, both variants): the `kw`
dictionary holds `host` only when `login_host` is non-empty, and the
unix-socket path replaces the host when the host is absent, empty or
`localhost` and the socket path is non-empty. -/

/-- The `host` entry of the `kw` dictionary before socket substitution. -/
def buildKwHost (login_host : String) : Option String :=
  if login_host != "" then some login_host else none

/-- The `is_localhost` test of `main`: `"host" not in kw or
kw["host"] == "" or kw["host"] == "localhost"`. -/
def is_localhost_check (kwHost : Option String) : Bool :=
  match kwHost with
  | none => true
  | some h => h == "" || h == "localhost"

/-- Effective connection host handed to `psycopg2.connect`; `none` means
the library default is used. -/
def effectiveHost (login_host login_unix_socket : String) : Option String :=
  let kwHost := buildKwHost login_host
  if is_localhost_check kwHost && login_unix_socket != "" then
    some login_unix_socket
  else
    kwHost

/-! Helper lemmas shared by the claim theorems. -/

lemma findRow_total (db : Db) (o : String)
    (h : db.any (fun r => r.name == o) = true) : ∃ r, findRow db o = some r := by
  cases hf : findRow db o with
  | some r => exact ⟨r, rfl⟩
  | none =>
    rw [findRow, List.find?_eq_none] at hf
    obtain ⟨x, hx, hpx⟩ := List.any_eq_true.mp h
    exact absurd hpx (hf x hx)

lemma configurable_any_name (db : Db) (g : String)
    (h : is_guc_configurable db g = true) : db.any (fun r => r.name == g) = true := by
  rw [is_guc_configurable] at h
  obtain ⟨x, hx, hpx⟩ := List.any_eq_true.mp h
  rw [Bool.and_eq_true] at hpx
  exact List.any_eq_true.mpr ⟨x, hx, hpx.2⟩

lemma findRow_of_configurable (db : Db) (g : String)
    (h : is_guc_configurable db g = true) : ∃ r, findRow db g = some r :=
  findRow_total db g (configurable_any_name db g h)

lemma any_map_preserved (db : Db) (f : Row → Row) (p : Row → Bool)
    (hf : ∀ r, p (f r) = p r) : (db.map f).any p = db.any p := by
  induction db with
  | nil => rfl
  | cons a t ih => simp only [List.map_cons, List.any_cons, hf, ih]

lemma is_guc_configurable_applySetDb (db : Db) (g v g' : String) :
    is_guc_configurable (applySetDb db g v) g' = is_guc_configurable db g' := by
  rw [is_guc_configurable, is_guc_configurable, applySetDb]
  exact any_map_preserved db _ _ (fun r => by by_cases h : r.name == g <;> simp [h])

lemma is_guc_configurable_applyResetDb (db : Db) (g g' : String) :
    is_guc_configurable (applyResetDb db g) g' = is_guc_configurable db g' := by
  rw [is_guc_configurable, is_guc_configurable, applyResetDb]
  exact any_map_preserved db _ _ (fun r => by by_cases h : r.name == g <;> simp [h])

lemma findRow_applySetDb (db : Db) (g v : String) :
    findRow (applySetDb db g v) g =
      (findRow db g).map (fun r => { r with reset_val := v }) := by
  rw [findRow, applySetDb, List.find?_map, findRow]
  have hp : ((fun r : Row => r.name == g) ∘
      (fun r : Row => if r.name == g then { r with reset_val := v } else r)) =
      (fun r : Row => r.name == g) := by
    funext r
    by_cases h : r.name = g <;> simp [h]
  rw [hp]
  cases hf : db.find? (fun r => r.name == g) with
  | none => rfl
  | some r =>
    have hr : r.name = g := by
      simpa using List.find?_some (p := fun x : Row => x.name == g) hf
    simp [hr]

lemma is_guc_default_applyResetDb (db : Db) (g : String)
    (h : db.any (fun r => r.name == g) = true) :
    is_guc_default (applyResetDb db g) g = true := by
  obtain ⟨x, hx, hpx⟩ := List.any_eq_true.mp h
  rw [is_guc_default, applyResetDb]
  apply List.any_eq_true.mpr
  refine ⟨if x.name == g then { x with reset_val := x.boot_val } else x,
    List.mem_map_of_mem _ hx, ?_⟩
  simp [hpx]

lemma guc_matches_applySetDb (db : Db) (g v : String) (r : Row)
    (hr : findRow db g = some r) :
    guc_matches (applySetDb db g v) g v = some true := by
  rw [guc_matches, current_setting, findRow_applySetDb, hr]
  simp

lemma is_guc_default_of_unique (db : Db) (g : String) (r : Row)
    (hu : ∀ r1 ∈ db, ∀ r2 ∈ db, r1.name = r2.name → r1 = r2)
    (hr : findRow db g = some r) :
    is_guc_default db g = (r.boot_val == r.reset_val) := by
  rw [findRow] at hr
  have hmem : r ∈ db := List.mem_of_find?_eq_some hr
  have hname : (r.name == g) = true :=
    List.find?_some (p := fun x : Row => x.name == g) hr
  rw [Bool.eq_iff_iff]
  constructor
  · intro h
    obtain ⟨x, hx, hpx⟩ := List.any_eq_true.mp h
    rw [Bool.and_eq_true] at hpx
    have hxr : x = r := by
      have h1 : x.name = g := by simpa using hpx.2
      have h2 : r.name = g := by simpa using hname
      exact hu x hx r hmem (h1.trans h2.symm)
    rw [← hxr]
    exact hpx.1
  · intro h
    exact List.any_eq_true.mpr ⟨r, hmem, by rw [Bool.and_eq_true]; exact ⟨h, hname⟩⟩

lemma guc_matches_eq (db : Db) (g v : String) (row : Row)
    (hrow : findRow db g = some row) :
    guc_matches db g v = some (row.reset_val == v) := by
  rw [guc_matches, current_setting, hrow]
  rfl

lemma do_guc_set_eq (db : Db) (g v : String) (row : Row)
    (hrow : findRow db g = some row) :
    do_guc_set db g v =
      some (if row.reset_val == v then ⟨false, db, []⟩
        else ⟨true, applySetDb db g v, [Stmt.setStmt g v]⟩) := by
  rw [do_guc_set, guc_matches_eq db g v row hrow]
  by_cases hb : (row.reset_val == v) = true
  · simp [hb]
  · have hb' : (row.reset_val == v) = false := by simpa using hb
    simp [hb']

lemma option_matches_eq (db : Db) (o v : String) (row : Row)
    (hrow : findRow db o = some row) :
    option_matches db o v = some (row.reset_val == v) := by
  rw [option_matches, current_setting, hrow]
  rfl

lemma option_set_eq (db : Db) (o v : String) (row : Row)
    (hrow : findRow db o = some row) :
    option_set db o v =
      some (if row.reset_val == v then ⟨false, db, []⟩
        else ⟨true, applySetDb db o v, [Stmt.setStmt o v]⟩) := by
  rw [option_set, option_matches_eq db o v row hrow]
  by_cases hb : (row.reset_val == v) = true
  · simp [hb]
  · have hb' : (row.reset_val == v) = false := by simpa using hb
    simp [hb']

lemma option_reset_eq (db : Db) (o : String) (row : Row)
    (hrow : findRow db o = some row) :
    option_reset db o =
      some (if row.boot_val == row.reset_val then ⟨false, db, []⟩
        else ⟨true, applySetDb db o row.boot_val,
          [Stmt.setStmt o row.boot_val]⟩) := by
  rw [option_reset, option_isdefault, hrow, option_get_default_value, hrow]
  by_cases hb : (row.boot_val == row.reset_val) = true
  · simp [hb]
  · have hb' : (row.boot_val == row.reset_val) = false := by simpa using hb
    simp [hb']

lemma reconcile_total_warned (db : Db) (g v : String) (st : GucState) (cm : Bool) :
    ∃ r, reconcile db g v st cm = some r
      ∧ r.warned = !(is_guc_configurable db g) ∧ r.writes.length ≤ 1 := by
  by_cases hc : is_guc_configurable db g = true
  · obtain ⟨row, hrow⟩ := findRow_of_configurable db g hc
    cases cm with
    | true =>
      cases st with
      | absent =>
        exact ⟨⟨!(is_guc_default db g), false, db, []⟩,
          by simp [reconcile, hc], by simp [hc], by simp⟩
      | present =>
        exact ⟨⟨!(row.reset_val == v), false, db, []⟩,
          by simp [reconcile, hc, guc_matches_eq db g v row hrow], by simp [hc],
          by simp⟩
    | false =>
      cases st with
      | absent =>
        refine ⟨⟨(do_guc_reset db g).changed, false, (do_guc_reset db g).db,
            (do_guc_reset db g).writes⟩,
          by simp [reconcile, hc], by simp [hc], ?_⟩
        by_cases hd : is_guc_default db g = true
        · simp [do_guc_reset, hd]
        · have hd' : is_guc_default db g = false := by simpa using hd
          simp [do_guc_reset, hd']
      | present =>
        by_cases hb : (row.reset_val == v) = true
        · exact ⟨⟨false, false, db, []⟩,
            by simp [reconcile, hc, do_guc_set_eq db g v row hrow, hb],
            by simp [hc], by simp⟩
        · have hb' : (row.reset_val == v) = false := by simpa using hb
          exact ⟨⟨true, false, applySetDb db g v, [Stmt.setStmt g v]⟩,
            by simp [reconcile, hc, do_guc_set_eq db g v row hrow, hb'],
            by simp [hc], by simp⟩
  · have hc' : is_guc_configurable db g = false := by simpa using hc
    exact ⟨⟨false, true, db, []⟩, by simp [reconcile, hc'], by simp [hc'], by simp⟩

lemma earlyMain_total_warned (db : Db) (o v : String) (st : GucState) (cm : Bool) :
    ∃ r, earlyMain db o v st cm = some r
      ∧ r.warned = (option_ispreset db o || !(option_exists db o))
      ∧ r.writes.length ≤ 1 := by
  by_cases hp : option_ispreset db o = true
  · exact ⟨⟨false, true, db, []⟩, by simp [earlyMain, hp], by simp [hp], by simp⟩
  · have hp' : option_ispreset db o = false := by simpa using hp
    by_cases he : option_exists db o = true
    · obtain ⟨row, hrow⟩ := findRow_total db o he
      cases cm with
      | true =>
        cases st with
        | absent =>
          exact ⟨⟨!(option_isdefault db o), false, db, []⟩,
            by simp [earlyMain, hp', he], by simp [hp', he], by simp⟩
        | present =>
          exact ⟨⟨!(row.reset_val == v), false, db, []⟩,
            by simp [earlyMain, hp', he, option_matches_eq db o v row hrow],
            by simp [hp', he], by simp⟩
      | false =>
        cases st with
        | absent =>
          by_cases hb : (row.boot_val == row.reset_val) = true
          · exact ⟨⟨false, false, db, []⟩,
              by simp [earlyMain, hp', he, option_reset_eq db o row hrow, hb],
              by simp [hp', he], by simp⟩
          · have hb' : (row.boot_val == row.reset_val) = false := by simpa using hb
            exact ⟨⟨true, false, applySetDb db o row.boot_val,
                [Stmt.setStmt o row.boot_val]⟩,
              by simp [earlyMain, hp', he, option_reset_eq db o row hrow, hb'],
              by simp [hp', he], by simp⟩
        | present =>
          by_cases hb : (row.reset_val == v) = true
          · exact ⟨⟨false, false, db, []⟩,
              by simp [earlyMain, hp', he, option_set_eq db o v row hrow, hb],
              by simp [hp', he], by simp⟩
          · have hb' : (row.reset_val == v) = false := by simpa using hb
            exact ⟨⟨true, false, applySetDb db o v, [Stmt.setStmt o v]⟩,
              by simp [earlyMain, hp', he, option_set_eq db o v row hrow, hb'],
              by simp [hp', he], by simp⟩
    · have he' : option_exists db o = false := by simpa using he
      exact ⟨⟨false, true, db, []⟩, by simp [earlyMain, hp', he'],
        by simp [hp', he'], by simp⟩

/-! Claim theorems. -/

/-- C2: Non-configurable guard — when every catalog row bearing the name has
the internal context (in particular when no row exists at all), the modern
reconciler issues no write, emits a warning, and exits successfully with
`changed = false`, for every desired state, value and check-mode flag. -/
theorem nonconfigurable_guard (db : Db) (g v : String) (st : GucState) (cm : Bool)
    (h : ∀ r ∈ db, r.name = g → r.context = "internal") :
    is_guc_configurable db g = false
      ∧ reconcile db g v st cm = some ⟨false, true, db, []⟩ := by
  have hc : is_guc_configurable db g = false := by
    rw [is_guc_configurable]
    cases hany : db.any (fun r => r.context != "internal" && r.name == g) with
    | false => rfl
    | true =>
      obtain ⟨x, hx, hpx⟩ := List.any_eq_true.mp hany
      rw [Bool.and_eq_true] at hpx
      have h1 : x.name = g := by simpa using hpx.2
      have h2 : x.context ≠ "internal" := by simpa using hpx.1
      exact absurd (h x hx h1) h2
  exact ⟨hc, by simp [reconcile, hc]⟩

/-- Witness for the non-configurable guard at a concrete internal parameter. -/
theorem nonconfigurable_guard_witness :
    is_guc_configurable [⟨"block_size", "internal", "8192", "8192"⟩] "block_size"
        = false
      ∧ reconcile [⟨"block_size", "internal", "8192", "8192"⟩] "block_size" "4096"
          GucState.present false =
        some ⟨false, true, [⟨"block_size", "internal", "8192", "8192"⟩], []⟩ :=
  nonconfigurable_guard [⟨"block_size", "internal", "8192", "8192"⟩] "block_size"
    "4096" GucState.present false (by decide)

/-- C6: Missing-row behavior of the is-at-default check — when no catalog row
bears the name, the modern `is_guc_default` and the early `option_isdefault`
both return `false` (no error is raised; both functions are total here by
construction, mirroring the sources, which return a plain boolean on an empty
result instead of raising). -/
theorem is_default_missing_row (db : Db) (g : String)
    (h : ∀ r ∈ db, r.name ≠ g) :
    is_guc_default db g = false ∧ option_isdefault db g = false := by
  have hfind : findRow db g = none := by
    rw [findRow, List.find?_eq_none]
    intro x hx
    simpa using h x hx
  constructor
  · rw [is_guc_default]
    cases hany : db.any (fun r => r.boot_val == r.reset_val && r.name == g) with
    | false => rfl
    | true =>
      obtain ⟨x, hx, hpx⟩ := List.any_eq_true.mp hany
      rw [Bool.and_eq_true] at hpx
      exact absurd (by simpa using hpx.2) (h x hx)
  · rw [option_isdefault, hfind]

/-- Witness for the missing-row is-at-default check at a concrete name. -/
theorem is_default_missing_row_witness :
    is_guc_default [⟨"work_mem", "user", "4MB", "4MB"⟩] "no_such_guc" = false
      ∧ option_isdefault [⟨"work_mem", "user", "4MB", "4MB"⟩] "no_such_guc"
        = false :=
  is_default_missing_row [⟨"work_mem", "user", "4MB", "4MB"⟩] "no_such_guc"
    (by decide)

/-- C8: Unix-socket host substitution — the socket path becomes the effective
connection host exactly when the supplied host is empty or the literal
`localhost` and the socket path is non-empty; otherwise the supplied host
(or, for an empty host, the library default `none`) is used and the socket
path is ignored. -/
theorem unix_socket_host_substitution (h s : String) :
    effectiveHost h s =
      if (h = "" ∨ h = "localhost") ∧ s ≠ "" then some s
      else if h = "" then none else some h := by
  rw [effectiveHost, buildKwHost]
  by_cases h0 : h = ""
  · by_cases s0 : s = "" <;> simp [h0, s0, is_localhost_check]
  · by_cases hl : h = "localhost"
    · by_cases s0 : s = "" <;> simp [h0, hl, s0, is_localhost_check]
    · by_cases s0 : s = "" <;> simp [h0, hl, s0, is_localhost_check]

/-- C5: Single-write invariant — every invocation of either variant, on every
input and catalog state on which it completes, issues at most one mutating
statement. -/
theorem single_write_invariant :
    (∀ (db : Db) (g v : String) (st : GucState) (cm : Bool) (r : Outcome),
        reconcile db g v st cm = some r → r.writes.length ≤ 1)
      ∧ (∀ (db : Db) (o v : String) (st : GucState) (cm : Bool) (r : Outcome),
        earlyMain db o v st cm = some r → r.writes.length ≤ 1) := by
  constructor
  · intro db g v st cm r h
    obtain ⟨r', h', _, hl⟩ := reconcile_total_warned db g v st cm
    rw [h] at h'
    have hrr : r = r' := Option.some.inj h'
    rw [hrr]
    exact hl
  · intro db o v st cm r h
    obtain ⟨r', h', _, hl⟩ := earlyMain_total_warned db o v st cm
    rw [h] at h'
    have hrr : r = r' := Option.some.inj h'
    rw [hrr]
    exact hl

/-- Witness for the single-write invariant on a run that does write. -/
theorem single_write_invariant_witness :
    reconcile [⟨"work_mem", "user", "4MB", "8MB"⟩] "work_mem" "" GucState.absent
        false =
      some ⟨true, false, [⟨"work_mem", "user", "4MB", "4MB"⟩],
        [Stmt.resetStmt "work_mem"]⟩
      ∧ (⟨true, false, [⟨"work_mem", "user", "4MB", "4MB"⟩],
          [Stmt.resetStmt "work_mem"]⟩ : Outcome).writes.length ≤ 1 :=
  ⟨by decide,
    single_write_invariant.1 [⟨"work_mem", "user", "4MB", "8MB"⟩] "work_mem" ""
      GucState.absent false
      ⟨true, false, [⟨"work_mem", "user", "4MB", "4MB"⟩],
        [Stmt.resetStmt "work_mem"]⟩ (by decide)⟩

/-- C10: Reset precondition in the early variant — when no catalog row bears
the name, `option_isdefault` returns `false`, so `option_reset` proceeds to
`option_get_default_value`, whose empty fetch makes the subscript fault
(modelled as `none`); and under `main`'s flow, which checks `option_exists`
first, the early variant never reaches that fault (it always completes). -/
theorem early_reset_precondition :
    (∀ (db : Db) (o : String), (∀ r ∈ db, r.name ≠ o) →
        option_isdefault db o = false ∧ option_reset db o = none)
      ∧ ∀ (db : Db) (o v : String) (st : GucState) (cm : Bool),
        (earlyMain db o v st cm).isSome = true := by
  constructor
  · intro db o h
    have hfind : findRow db o = none := by
      rw [findRow, List.find?_eq_none]
      intro x hx
      simpa using h x hx
    have hd : option_isdefault db o = false := by rw [option_isdefault, hfind]
    refine ⟨hd, ?_⟩
    rw [option_reset, hd]
    simp [option_get_default_value, hfind]
  · intro db o v st cm
    obtain ⟨r, hr, _, _⟩ := earlyMain_total_warned db o v st cm
    rw [hr]
    rfl

/-- Witness for the early reset precondition at a concrete missing name. -/
theorem early_reset_precondition_witness :
    option_isdefault [⟨"work_mem", "user", "4MB", "4MB"⟩] "no_such_guc" = false
      ∧ option_reset [⟨"work_mem", "user", "4MB", "4MB"⟩] "no_such_guc" = none :=
  early_reset_precondition.1 [⟨"work_mem", "user", "4MB", "4MB"⟩] "no_such_guc"
    (by decide)

/-- C1: Reconciliation is idempotent — if a non-check-mode run of the modern
reconciler completes with outcome `r1` and nothing else mutates the catalog,
a second run with the identical desired state completes, reports
`changed = false`, issues no write, and leaves the catalog unchanged; so
`changed = true` can occur at most on the first of the two runs. -/
theorem reconcile_idempotent (db : Db) (g v : String) (st : GucState) (r1 : Outcome)
    (h : reconcile db g v st false = some r1) :
    reconcile r1.db g v st false =
      some ⟨false, !(is_guc_configurable r1.db g), r1.db, []⟩ := by
  by_cases hc : is_guc_configurable db g = true
  · obtain ⟨row, hrow⟩ := findRow_of_configurable db g hc
    cases st with
    | absent =>
      by_cases hd : is_guc_default db g = true
      · have h1 : reconcile db g v GucState.absent false =
            some ⟨false, false, db, []⟩ := by
          simp [reconcile, hc, do_guc_reset, hd]
        rw [h1] at h
        have hr1 : r1 = ⟨false, false, db, []⟩ := (Option.some.inj h).symm
        subst hr1
        simp [reconcile, hc, do_guc_reset, hd]
      · have hd' : is_guc_default db g = false := by simpa using hd
        have h1 : reconcile db g v GucState.absent false =
            some ⟨true, false, applyResetDb db g, [Stmt.resetStmt g]⟩ := by
          simp [reconcile, hc, do_guc_reset, hd']
        rw [h1] at h
        have hr1 : r1 = ⟨true, false, applyResetDb db g, [Stmt.resetStmt g]⟩ :=
          (Option.some.inj h).symm
        subst hr1
        have hc2 : is_guc_configurable (applyResetDb db g) g = true := by
          rw [is_guc_configurable_applyResetDb]
          exact hc
        have hd2 : is_guc_default (applyResetDb db g) g = true :=
          is_guc_default_applyResetDb db g (configurable_any_name db g hc)
        simp [reconcile, hc2, do_guc_reset, hd2]
    | present =>
      by_cases hb : (row.reset_val == v) = true
      · have h1 : reconcile db g v GucState.present false =
            some ⟨false, false, db, []⟩ := by
          simp [reconcile, hc, do_guc_set_eq db g v row hrow, hb]
        rw [h1] at h
        have hr1 : r1 = ⟨false, false, db, []⟩ := (Option.some.inj h).symm
        subst hr1
        simp [reconcile, hc, do_guc_set_eq db g v row hrow, hb]
      · have hb' : (row.reset_val == v) = false := by simpa using hb
        have h1 : reconcile db g v GucState.present false =
            some ⟨true, false, applySetDb db g v, [Stmt.setStmt g v]⟩ := by
          simp [reconcile, hc, do_guc_set_eq db g v row hrow, hb']
        rw [h1] at h
        have hr1 : r1 = ⟨true, false, applySetDb db g v, [Stmt.setStmt g v]⟩ :=
          (Option.some.inj h).symm
        subst hr1
        have hc2 : is_guc_configurable (applySetDb db g v) g = true := by
          rw [is_guc_configurable_applySetDb]
          exact hc
        have hrow2 : findRow (applySetDb db g v) g =
            some { row with reset_val := v } := by
          rw [findRow_applySetDb, hrow]
          rfl
        have h2 := do_guc_set_eq (applySetDb db g v) g v
          { row with reset_val := v } hrow2
        simp [reconcile, hc2, h2]
  · have hc' : is_guc_configurable db g = false := by simpa using hc
    have h1 : reconcile db g v st false = some ⟨false, true, db, []⟩ := by
      simp [reconcile, hc']
    rw [h1] at h
    have hr1 : r1 = ⟨false, true, db, []⟩ := (Option.some.inj h).symm
    subst hr1
    simp [reconcile, hc']

/-- Witness for idempotence: a first run that resets `work_mem`, then the
second run reporting no change. -/
theorem reconcile_idempotent_witness :
    reconcile [⟨"work_mem", "user", "4MB", "4MB"⟩] "work_mem" "" GucState.absent
        false =
      some ⟨false,
        !(is_guc_configurable [⟨"work_mem", "user", "4MB", "4MB"⟩] "work_mem"),
        [⟨"work_mem", "user", "4MB", "4MB"⟩], []⟩ :=
  reconcile_idempotent [⟨"work_mem", "user", "4MB", "8MB"⟩] "work_mem" ""
    GucState.absent
    ⟨true, false, [⟨"work_mem", "user", "4MB", "4MB"⟩], [Stmt.resetStmt "work_mem"]⟩
    (by decide)

/-- C3: Dry-run equivalence — for a configurable parameter, the `changed`
value reported in check mode equals the one a non-check-mode run on the same
catalog state would report, and the check-mode run issues no write and leaves
the catalog untouched. -/
theorem dry_run_equivalence (db : Db) (g v : String) (st : GucState)
    (hc : is_guc_configurable db g = true) :
    (reconcile db g v st true).map (fun r => r.changed)
        = (reconcile db g v st false).map (fun r => r.changed)
      ∧ (reconcile db g v st true).map (fun r => r.writes) = some []
      ∧ (reconcile db g v st true).map (fun r => r.db) = some db := by
  obtain ⟨row, hrow⟩ := findRow_of_configurable db g hc
  cases st with
  | absent =>
    have h1 : reconcile db g v GucState.absent true =
        some ⟨!(is_guc_default db g), false, db, []⟩ := by
      simp [reconcile, hc]
    by_cases hd : is_guc_default db g = true
    · have h2 : reconcile db g v GucState.absent false =
          some ⟨false, false, db, []⟩ := by
        simp [reconcile, hc, do_guc_reset, hd]
      rw [h1, h2]
      simp [hd]
    · have hd' : is_guc_default db g = false := by simpa using hd
      have h2 : reconcile db g v GucState.absent false =
          some ⟨true, false, applyResetDb db g, [Stmt.resetStmt g]⟩ := by
        simp [reconcile, hc, do_guc_reset, hd']
      rw [h1, h2]
      simp [hd']
  | present =>
    have h1 : reconcile db g v GucState.present true =
        some ⟨!(row.reset_val == v), false, db, []⟩ := by
      simp [reconcile, hc, guc_matches_eq db g v row hrow]
    by_cases hb : (row.reset_val == v) = true
    · have h2 : reconcile db g v GucState.present false =
          some ⟨false, false, db, []⟩ := by
        simp [reconcile, hc, do_guc_set_eq db g v row hrow, hb]
      rw [h1, h2]
      simp [hb]
    · have hb' : (row.reset_val == v) = false := by simpa using hb
      have h2 : reconcile db g v GucState.present false =
          some ⟨true, false, applySetDb db g v, [Stmt.setStmt g v]⟩ := by
        simp [reconcile, hc, do_guc_set_eq db g v row hrow, hb']
      rw [h1, h2]
      simp [hb']

/-- Witness for dry-run equivalence at a concrete catalog and desired value. -/
theorem dry_run_equivalence_witness :
    (reconcile [⟨"work_mem", "user", "4MB", "8MB"⟩] "work_mem" "16MB"
          GucState.present true).map (fun r => r.changed)
        = (reconcile [⟨"work_mem", "user", "4MB", "8MB"⟩] "work_mem" "16MB"
          GucState.present false).map (fun r => r.changed)
      ∧ (reconcile [⟨"work_mem", "user", "4MB", "8MB"⟩] "work_mem" "16MB"
          GucState.present true).map (fun r => r.writes) = some []
      ∧ (reconcile [⟨"work_mem", "user", "4MB", "8MB"⟩] "work_mem" "16MB"
          GucState.present true).map (fun r => r.db)
        = some [⟨"work_mem", "user", "4MB", "8MB"⟩] :=
  dry_run_equivalence [⟨"work_mem", "user", "4MB", "8MB"⟩] "work_mem" "16MB"
    GucState.present (by decide)

/-- C4: Changed postcondition of the apply operations — with unique catalog
names and an existing row for the parameter, `do_guc_reset` reports `true`
and issues exactly one reset statement precisely when the persisted value
differs from the boot value, and `do_guc_set` reports `true` and issues
exactly one set statement precisely when the current value differs from the
desired one; in the other cases both report `false` and issue nothing. -/
theorem apply_ops_changed_postcondition (db : Db) (g v : String) (row : Row)
    (hu : ∀ r1 ∈ db, ∀ r2 ∈ db, r1.name = r2.name → r1 = r2)
    (hrow : findRow db g = some row) :
    (do_guc_reset db g).changed = !(row.boot_val == row.reset_val)
      ∧ (do_guc_reset db g).writes
          = (if row.boot_val == row.reset_val then [] else [Stmt.resetStmt g])
      ∧ (do_guc_set db g v).map (fun w => w.changed)
          = some (!(row.reset_val == v))
      ∧ (do_guc_set db g v).map (fun w => w.writes)
          = some (if row.reset_val == v then [] else [Stmt.setStmt g v]) := by
  have hd := is_guc_default_of_unique db g row hu hrow
  have hs := do_guc_set_eq db g v row hrow
  refine ⟨?_, ?_, ?_, ?_⟩
  · by_cases hb : (row.boot_val == row.reset_val) = true
    · simp [do_guc_reset, hd, hb]
    · have hb' : (row.boot_val == row.reset_val) = false := by simpa using hb
      simp [do_guc_reset, hd, hb']
  · by_cases hb : (row.boot_val == row.reset_val) = true
    · simp [do_guc_reset, hd, hb]
    · have hb' : (row.boot_val == row.reset_val) = false := by simpa using hb
      simp [do_guc_reset, hd, hb']
  · by_cases hb : (row.reset_val == v) = true
    · simp [hs, hb]
    · have hb' : (row.reset_val == v) = false := by simpa using hb
      simp [hs, hb']
  · by_cases hb : (row.reset_val == v) = true
    · simp [hs, hb]
    · have hb' : (row.reset_val == v) = false := by simpa using hb
      simp [hs, hb']

/-- Witness for the apply-operation postconditions at a concrete overridden
parameter. -/
theorem apply_ops_changed_postcondition_witness :
    (do_guc_reset [⟨"work_mem", "user", "4MB", "8MB"⟩] "work_mem").changed
        = !(("4MB" : String) == "8MB")
      ∧ (do_guc_reset [⟨"work_mem", "user", "4MB", "8MB"⟩] "work_mem").writes
          = (if ("4MB" : String) == "8MB" then []
            else [Stmt.resetStmt "work_mem"])
      ∧ (do_guc_set [⟨"work_mem", "user", "4MB", "8MB"⟩] "work_mem" "8MB").map
            (fun w => w.changed)
          = some (!(("8MB" : String) == "8MB"))
      ∧ (do_guc_set [⟨"work_mem", "user", "4MB", "8MB"⟩] "work_mem" "8MB").map
            (fun w => w.writes)
          = some (if ("8MB" : String) == "8MB" then []
            else [Stmt.setStmt "work_mem" "8MB"]) :=
  apply_ops_changed_postcondition [⟨"work_mem", "user", "4MB", "8MB"⟩]
    "work_mem" "8MB" ⟨"work_mem", "user", "4MB", "8MB"⟩ (by decide) (by decide)

/-- C9: Guard equivalence across variants — with unique catalog names, the
early variant's condition for proceeding to a write (not preset and the row
exists) coincides with the modern `is_guc_configurable`, and on every input
both variants complete and warn on exactly the same names. -/
theorem guard_equivalence_variants (db : Db) (o v : String) (st : GucState)
    (cm : Bool)
    (hu : ∀ r1 ∈ db, ∀ r2 ∈ db, r1.name = r2.name → r1 = r2) :
    (!(option_ispreset db o) && option_exists db o) = is_guc_configurable db o
      ∧ (reconcile db o v st cm).map (fun r => r.warned)
          = (earlyMain db o v st cm).map (fun r => r.warned) := by
  have hguard : (!(option_ispreset db o) && option_exists db o)
      = is_guc_configurable db o := by
    rw [Bool.eq_iff_iff]
    constructor
    · intro h
      rw [Bool.and_eq_true] at h
      have hp : option_ispreset db o = false := by simpa using h.1
      obtain ⟨x, hx, hxe⟩ := List.any_eq_true.mp h.2
      apply List.any_eq_true.mpr
      refine ⟨x, hx, ?_⟩
      rw [Bool.and_eq_true]
      refine ⟨?_, hxe⟩
      by_cases hxc : x.context = "internal"
      · have hps : option_ispreset db o = true := by
          apply List.any_eq_true.mpr
          refine ⟨x, hx, ?_⟩
          rw [Bool.and_eq_true]
          exact ⟨by simpa using hxc, hxe⟩
        rw [hps] at hp
        exact absurd hp (by simp)
      · simpa using hxc
    · intro hcfg
      obtain ⟨x, hx, hxp⟩ := List.any_eq_true.mp hcfg
      rw [Bool.and_eq_true] at hxp
      rw [Bool.and_eq_true]
      constructor
      · have hps : option_ispreset db o = false := by
          cases hps : option_ispreset db o with
          | false => rfl
          | true =>
            obtain ⟨y, hy, hyp⟩ := List.any_eq_true.mp hps
            rw [Bool.and_eq_true] at hyp
            have hxy : x = y := by
              apply hu x hx y hy
              have h1 : x.name = o := by simpa using hxp.2
              have h2 : y.name = o := by simpa using hyp.2
              rw [h1, h2]
            have hxi : x.context ≠ "internal" := by simpa using hxp.1
            have hyi : y.context = "internal" := by simpa using hyp.1
            exact absurd (hxy ▸ hyi) hxi
        simp [hps]
      · exact List.any_eq_true.mpr ⟨x, hx, hxp.2⟩
  refine ⟨hguard, ?_⟩
  obtain ⟨r1, h1, hw1, _⟩ := reconcile_total_warned db o v st cm
  obtain ⟨r2, h2, hw2, _⟩ := earlyMain_total_warned db o v st cm
  rw [h1, h2]
  simp only [Option.map_some']
  rw [hw1, hw2, ← hguard]
  cases option_ispreset db o <;> cases option_exists db o <;> rfl

/-- Witness for the guard equivalence at a concrete single-row catalog. -/
theorem guard_equivalence_variants_witness :
    (!(option_ispreset [⟨"work_mem", "user", "4MB", "8MB"⟩] "work_mem")
        && option_exists [⟨"work_mem", "user", "4MB", "8MB"⟩] "work_mem")
      = is_guc_configurable [⟨"work_mem", "user", "4MB", "8MB"⟩] "work_mem" :=
  (guard_equivalence_variants [⟨"work_mem", "user", "4MB", "8MB"⟩] "work_mem"
    "8MB" GucState.present false (by decide)).1

lemma escQuotes_injective : ∀ l1 l2 : List Char,
    escQuotes l1 = escQuotes l2 → l1 = l2 := by
  intro l1
  induction l1 with
  | nil =>
    intro l2 h
    cases l2 with
    | nil => rfl
    | cons d ds =>
      simp only [escQuotes] at h
      by_cases hd : d = '"'
      · rw [if_pos hd] at h
        exact absurd h (by simp)
      · rw [if_neg hd] at h
        exact absurd h (by simp)
  | cons c cs ih =>
    intro l2 h
    cases l2 with
    | nil =>
      simp only [escQuotes] at h
      by_cases hc : c = '"'
      · rw [if_pos hc] at h
        exact absurd h (by simp)
      · rw [if_neg hc] at h
        exact absurd h (by simp)
    | cons d ds =>
      simp only [escQuotes] at h
      by_cases hc : c = '"'
      · by_cases hd : d = '"'
        · rw [if_pos hc, if_pos hd] at h
          injection h with _ h2
          injection h2 with _ h3
          rw [hc, hd, ih ds h3]
        · rw [if_pos hc, if_neg hd] at h
          injection h with h1 _
          exact absurd h1.symm hd
      · by_cases hd : d = '"'
        · rw [if_neg hc, if_pos hd] at h
          injection h with h1 _
          exact absurd h1 hc
        · rw [if_neg hc, if_neg hd] at h
          injection h with h1 h2
          rw [h1, ih ds h2]

lemma quoteIdent_injective (a b : String)
    (h : quoteIdent a = quoteIdent b) : a = b := by
  rw [quoteIdent, quoteIdent] at h
  have h2 : '"' :: (escQuotes a.data ++ ['"'])
      = '"' :: (escQuotes b.data ++ ['"']) := congrArg String.data h
  injection h2 with _ h3
  have h4 : escQuotes a.data = escQuotes b.data := List.append_cancel_right h3
  have h5 : a.data = b.data := escQuotes_injective a.data b.data h4
  cases a with
  | mk la =>
    cases b with
    | mk lb => exact congrArg String.mk h5

/-- C7 counterexample: in the early variant, the caller-supplied value is
spliced into the executed SQL text by raw string formatting — the text
depends on the value (so it is not a constant template with bound
parameters), no parameters are bound, and a value containing a single quote
lands verbatim inside the statement, closing the string literal early. -/
theorem sql_interpolation_counterexample :
    (option_set_sql "a" "x").text ≠ (option_set_sql "a" "y").text
      ∧ (option_set_sql "a" "x").params = []
      ∧ (option_set_sql "a" ("x" ++ singleQuote ++ "; SELECT 1")).text
        = "ALTER SYSTEM SET a TO " ++ singleQuote ++ "x" ++ singleQuote
          ++ "; SELECT 1" ++ singleQuote := by
  refine ⟨?_, rfl, ?_⟩
  · decide
  · rw [option_set_sql]
    simp [String.append_assoc]

/-- C7 (amended): in the modern variant the executed SQL text is a constant
template independent of the caller-supplied value, which travels only in the
bound-parameter list; the parameter name enters the text only through the
identifier-quoting primitive `quoteIdent`, which is injective, so no two
names and no value can alter the statement structure.  (The early variant
violates the original claim; see the counterexample.) -/
theorem sql_binding_amended (g v w : String) :
    (do_guc_set_sql g v).text = (do_guc_set_sql g w).text
      ∧ (do_guc_set_sql g v).params = [v]
      ∧ (do_guc_set_sql g v).text = "ALTER SYSTEM SET " ++ quoteIdent g ++ " TO %s"
      ∧ (do_guc_reset_sql g).text = "ALTER SYSTEM RESET " ++ quoteIdent g
      ∧ (do_guc_reset_sql g).params = []
      ∧ (quoteIdent g = quoteIdent w → g = w) :=
  ⟨rfl, rfl, rfl, rfl, rfl, quoteIdent_injective g w⟩

/-- Witness for the amended binding property at concrete inputs. -/
theorem sql_binding_amended_witness :
    (do_guc_set_sql "work_mem" "8MB").text = (do_guc_set_sql "work_mem" "x").text
      ∧ (do_guc_set_sql "work_mem" "8MB").params = ["8MB"]
      ∧ (do_guc_set_sql "work_mem" "8MB").text
        = "ALTER SYSTEM SET " ++ quoteIdent "work_mem" ++ " TO %s"
      ∧ (do_guc_reset_sql "work_mem").text
        = "ALTER SYSTEM RESET " ++ quoteIdent "work_mem"
      ∧ (do_guc_reset_sql "work_mem").params = []
      ∧ (quoteIdent "work_mem" = quoteIdent "x" → ("work_mem" : String) = "x") :=
  sql_binding_amended "work_mem" "8MB" "x"
